import Mathlib

/-!
Verification of the event-to-sample alignment and classification pipeline of
the physio-data-parsing repository.  The Python sources
(`src/Gaze/DataWrangling_Dataviewer.py` and `src/Gaze/GazeDataLoader.py`) are
shallowly embedded below: pandas tables become Lean lists of structures,
floating-point timestamps become exact rationals, and pandas/Python failure
modes (`ValueError` from truth-testing a Series, `ValueError` from
`pd.concat` of no objects, `IndexError` from out-of-range indexing) become
`Except`/`Option` results.
-/

/-! ## Identifier classifier (`DataWrangling.parse_identifier`) -/

/-- Substring containment on strings, the embedding of Python's
`needle in haystack`. -/
def isPrefixList : List Char → List Char → Bool
  | [], _ => true
  | _ :: _, [] => false
  | a :: as, b :: bs => a == b && isPrefixList as bs

/-- Embedding of Python's `needle in haystack` for strings. -/
def strContains (hay need : String) : Bool :=
  (List.range (hay.toList.length + 1)).any (fun i => isPrefixList need.toList (hay.toList.drop i))

/-- Embedding of Python's `str.lower()` (identifiers are ASCII). -/
def lowerStr (s : String) : String :=
  String.mk (s.toList.map Char.toLower)

/-- Embedding of Python's slice `s[0:n]`. -/
def sliceTake (n : Nat) (s : String) : String :=
  String.mk (s.toList.take n)

/-- Embedding of Python's slice `s[-n:]`. -/
def sliceTakeRight (n : Nat) (s : String) : String :=
  String.mk ((s.toList.reverse.take n).reverse)

/-- The `trialtype_conditions` rule cascade of `parse_identifier`,
line for line from the source. -/
def trialtype_conditions (participantID identifier : String) : String :=
  if strContains identifier "Sham" then "sham"
  else if strContains identifier "Practice" then "Prac"
  else if strContains identifier "MW" then "MW"
  else if strContains identifier "SVT" then "SVT"
  else if strContains identifier "Inf" then "Inference"
  else if strContains identifier "Rote" then "Rote"
  else if strContains identifier "Deep" then "Deep"
  else if strContains identifier "DriftCorrect" then "DriftCorrect"
  else if strContains identifier "Recal" then "Recal"
  else if strContains identifier "BIGBREAK" then "Break"
  else if strContains identifier "Resting" then "restingState"
  else if strContains identifier "Localizer" then "Localizer"
  else if strContains identifier "IBI began" then "Localizer"
  else if strContains identifier "Lang Task" then "Localizer"
  else if strContains identifier "UNDEFINED" then "UNDEFINED"
  else if strContains participantID "EML1_001" && strContains (lowerStr identifier) "sham" then "NA"
  else if strContains identifier "ShamStart" then "NA"
  else "reading"

/-- The `text_conditions` rule cascade of `parse_identifier`. -/
def text_conditions (identifier : String) : String :=
  if strContains identifier "Validity" then "Validity"
  else if strContains identifier "Bias" then "Bias"
  else if strContains identifier "CausalClaims" then "CausalClaims"
  else if strContains identifier "Variables" then "Variables"
  else if strContains identifier "Hypotheses" then "Hypotheses"
  else "NA"

/-- The `stage_conditions` rule cascade of `parse_identifier`. -/
def stage_conditions (identifier : String) : String :=
  if strContains identifier "Z_Question" then "Y"
  else if strContains identifier "Y_Question" then "Z"
  else "X"

/-- The `pagenum_conditions` rule of `parse_identifier`: the first digit of
the identifier, incremented when the already-computed `TrialType` is one of
`reading`, `sham`, `prac` (the Python function returns `""` when there is no
digit; that absent marker is `none` here). -/
def pagenum_conditions (trialType identifier : String) : Option Nat :=
  match identifier.toList.find? Char.isDigit with
  | none => none
  | some c =>
    let p := c.toNat - 48
    if trialType = "reading" ∨ trialType = "sham" ∨ trialType = "prac" then some (p + 1)
    else some p

/-- One classified row, the columns `parse_identifier` adds to the frame. -/
structure ParsedRow where
  ParticipantID : String
  FilePart : String
  PartNo : String
  TrialType : String
  Text : String
  Stage : String
  PageNum : Option Nat
  deriving DecidableEq

/-- Per-row embedding of `DataWrangling.parse_identifier`: it derives
`ParticipantID`/`FilePart`/`PartNo` from `RECORDING_SESSION_LABEL` by fixed
slices and then applies the four rule cascades to `identifier`. -/
def parse_identifier (recording_session_label identifier : String) : ParsedRow :=
  let pid := sliceTake 8 recording_session_label
  let tt := trialtype_conditions pid identifier
  { ParticipantID := pid
    FilePart := sliceTakeRight 5 recording_session_label
    PartNo := sliceTakeRight 1 recording_session_label
    TrialType := tt
    Text := text_conditions identifier
    Stage := stage_conditions identifier
    PageNum := pagenum_conditions tt identifier }

/-- All substrings the classifier's cascades recognize; an identifier
containing none of them (and no case-insensitive `sham`) falls through every
rule. -/
def no_recognized (identifier : String) : Bool :=
  !strContains identifier "Sham" &&
  !strContains identifier "Practice" &&
  !strContains identifier "MW" &&
  !strContains identifier "SVT" &&
  !strContains identifier "Inf" &&
  !strContains identifier "Rote" &&
  !strContains identifier "Deep" &&
  !strContains identifier "DriftCorrect" &&
  !strContains identifier "Recal" &&
  !strContains identifier "BIGBREAK" &&
  !strContains identifier "Resting" &&
  !strContains identifier "Localizer" &&
  !strContains identifier "IBI began" &&
  !strContains identifier "Lang Task" &&
  !strContains identifier "UNDEFINED" &&
  !strContains identifier "ShamStart" &&
  !strContains identifier "Validity" &&
  !strContains identifier "Bias" &&
  !strContains identifier "CausalClaims" &&
  !strContains identifier "Variables" &&
  !strContains identifier "Hypotheses" &&
  !strContains identifier "Z_Question" &&
  !strContains identifier "Y_Question" &&
  !strContains (lowerStr identifier) "sham"

/-- C4 counterexample: for the identifier `"Z_Question_Deep3"` the classifier
yields `TrialType = "Deep"` and `Stage = "Y"` but `PageNum = 3`, not `4`
(`"Deep"` is not in the increment set `{reading, sham, prac}`), so the
claimed triple is false. -/
theorem parse_identifier_deep3_cex :
    ¬ ((parse_identifier "EML1_002_sr1" "Z_Question_Deep3").TrialType = "Deep"
      ∧ (parse_identifier "EML1_002_sr1" "Z_Question_Deep3").Stage = "Y"
      ∧ (parse_identifier "EML1_002_sr1" "Z_Question_Deep3").PageNum = some 4) := by
  decide

/-- C4 (amended): for the identifier `"Z_Question_Deep3"` the classifier
yields `TrialType = "Deep"`, `Stage = "Y"` and `PageNum = 3` (the digit `3`
is not incremented because `"Deep"` is not in `{reading, sham, prac}`). -/
theorem parse_identifier_deep3 :
    (parse_identifier "EML1_002_sr1" "Z_Question_Deep3").TrialType = "Deep"
      ∧ (parse_identifier "EML1_002_sr1" "Z_Question_Deep3").Stage = "Y"
      ∧ (parse_identifier "EML1_002_sr1" "Z_Question_Deep3").PageNum = some 3 := by
  decide

/-- C6: for every identifier containing none of the recognized substrings,
`parse_identifier` returns the default labels `TrialType = "reading"`,
`Text = "NA"`, `Stage = "X"`; being a total function of the identifier
string, it never raises, including on the empty identifier. -/
theorem parse_identifier_default (recording_session_label identifier : String)
    (h : no_recognized identifier = true) :
    (parse_identifier recording_session_label identifier).TrialType = "reading"
      ∧ (parse_identifier recording_session_label identifier).Text = "NA"
      ∧ (parse_identifier recording_session_label identifier).Stage = "X" := by
  simp only [no_recognized, Bool.and_eq_true, Bool.not_eq_true'] at h
  obtain ⟨⟨⟨⟨⟨⟨⟨⟨⟨⟨⟨⟨⟨⟨⟨⟨⟨⟨⟨⟨⟨⟨⟨h1, h2⟩, h3⟩, h4⟩, h5⟩, h6⟩, h7⟩, h8⟩, h9⟩,
    h10⟩, h11⟩, h12⟩, h13⟩, h14⟩, h15⟩, h16⟩, h17⟩, h18⟩, h19⟩, h20⟩, h21⟩,
    h22⟩, h23⟩, h24⟩ := h
  refine ⟨?_, ?_, ?_⟩
  · simp [parse_identifier, trialtype_conditions, h1, h2, h3, h4, h5, h6, h7,
      h8, h9, h10, h11, h12, h13, h14, h15, h16, h24]
  · simp [parse_identifier, text_conditions, h17, h18, h19, h20, h21]
  · simp [parse_identifier, stage_conditions, h22, h23]

/-- C6 witness: the empty identifier contains no recognized substring and
gets the all-default labels. -/
theorem parse_identifier_default_witness :
    no_recognized "" = true
      ∧ ((parse_identifier "EML1_001_sr1" "").TrialType = "reading"
        ∧ (parse_identifier "EML1_001_sr1" "").Text = "NA"
        ∧ (parse_identifier "EML1_001_sr1" "").Stage = "X") :=
  ⟨by decide, parse_identifier_default "EML1_001_sr1" "" (by decide)⟩

/-! ## Nearest-timestamp locator (`GazeDataLoader.find_nearest`) -/

/-- Total array indexing with numpy's default 0 stand-in; used only where the
Python code's indexing is in range. -/
def nth (l : List ℚ) (i : Nat) : ℚ :=
  (l.get? i).getD 0

/-- Embedding of `np.searchsorted(array, value, side="left")` on a sorted
array: the leftmost insertion point, i.e. the length of the prefix of
elements strictly below `v`. -/
def searchsorted_left (l : List ℚ) (v : ℚ) : Nat :=
  (l.takeWhile (fun x => decide (x < v))).length

/-- Embedding of Python's built-in `abs` on numbers. -/
def ratAbs (x : ℚ) : ℚ :=
  if x < 0 then -x else x

theorem ratAbs_eq_abs (x : ℚ) : ratAbs x = |x| := by
  rw [ratAbs, abs]
  rcases lt_or_le x 0 with h | h
  · rw [if_pos h, max_eq_right (by linarith)]
  · rw [if_neg (not_lt.mpr h), max_eq_left (by linarith)]

/-- Embedding of `GazeDataLoader.find_nearest`.  The final `array[idx]` of
the source raises `IndexError` when `idx` is out of range (only possible on
an empty array); that failure is the `none` of the `Option`. -/
def find_nearest (l : List ℚ) (v : ℚ) : Option (ℚ × Nat) :=
  if searchsorted_left l v > 0 ∧
      (searchsorted_left l v = l.length ∨
        ratAbs (v - nth l (searchsorted_left l v - 1)) < ratAbs (v - nth l (searchsorted_left l v))) then
    some (nth l (searchsorted_left l v - 1), searchsorted_left l v - 1)
  else
    (l.get? (searchsorted_left l v)).map (fun x => (x, searchsorted_left l v))

theorem nth_eq_of_get? {l : List ℚ} {i : Nat} {x : ℚ} (h : l.get? i = some x) :
    nth l i = x := by
  simp only [nth, h, Option.getD_some]

theorem searchsorted_left_nil (v : ℚ) : searchsorted_left [] v = 0 := rfl

theorem searchsorted_left_cons (a : ℚ) (l : List ℚ) (v : ℚ) :
    searchsorted_left (a :: l) v =
      if a < v then searchsorted_left l v + 1 else 0 := by
  simp only [searchsorted_left, List.takeWhile_cons]
  by_cases h : a < v
  · simp [h]
  · simp [h]

theorem searchsorted_left_le (l : List ℚ) (v : ℚ) :
    searchsorted_left l v ≤ l.length := by
  induction l with
  | nil => simp [searchsorted_left_nil]
  | cons a t ih =>
    rw [searchsorted_left_cons]
    by_cases h : a < v
    · simp only [if_pos h, List.length_cons]
      omega
    · simp [if_neg h]

theorem searchsorted_left_get_ge {l : List ℚ} {v : ℚ}
    (h : searchsorted_left l v < l.length) :
    ∃ x, l.get? (searchsorted_left l v) = some x ∧ v ≤ x := by
  induction l with
  | nil => simp at h
  | cons a t ih =>
    rw [searchsorted_left_cons] at h ⊢
    by_cases ha : a < v
    · rw [if_pos ha] at h ⊢
      obtain ⟨x, hx, hvx⟩ := ih (by simpa using Nat.lt_of_succ_lt_succ (by simpa using h))
      exact ⟨x, by simpa using hx, hvx⟩
    · rw [if_neg ha]
      exact ⟨a, rfl, le_of_not_lt ha⟩

theorem searchsorted_left_eq_length {l : List ℚ} {v : ℚ}
    (h : ∀ x ∈ l, x < v) : searchsorted_left l v = l.length := by
  induction l with
  | nil => rfl
  | cons a t ih =>
    rw [searchsorted_left_cons, if_pos (h a (List.mem_cons_self a t))]
    simp [ih (fun x hx => h x (List.mem_cons_of_mem a hx))]

theorem searchsorted_left_eq_of {l : List ℚ} {v : ℚ} :
    ∀ {k : Nat} {y : ℚ},
      (∀ j x, j < k → l.get? j = some x → x < v) →
      l.get? k = some y → ¬ y < v →
      searchsorted_left l v = k := by
  induction l with
  | nil =>
    intro k y _ hk _
    simp at hk
  | cons a t ih =>
    intro k y hfore hk hy
    rw [searchsorted_left_cons]
    cases k with
    | zero =>
      have hya : y = a := by simpa using hk.symm
      rw [if_neg (hya ▸ hy)]
    | succ k =>
      have ha : a < v := hfore 0 a (Nat.succ_pos k) rfl
      rw [if_pos ha]
      have ht : searchsorted_left t v = k :=
        ih (fun j x hj hx => hfore (j + 1) x (Nat.succ_lt_succ hj) (by simpa using hx))
          (by simpa using hk) hy
      omega

/-- On a nonempty array `find_nearest` succeeds, its index is in range and
matches its value; the index is 0 when the insertion point is 0 and the last
index when the insertion point is the length. -/
theorem find_nearest_spec (l : List ℚ) (v : ℚ) (hne : l ≠ []) :
    ∃ x i, find_nearest l v = some (x, i) ∧ i < l.length ∧ l.get? i = some x
      ∧ (searchsorted_left l v = 0 → i = 0)
      ∧ (searchsorted_left l v = l.length → i = l.length - 1) := by
  have hlen : 0 < l.length := List.length_pos.mpr hne
  have hle := searchsorted_left_le l v
  by_cases hC : searchsorted_left l v > 0 ∧
      (searchsorted_left l v = l.length ∨
        ratAbs (v - nth l (searchsorted_left l v - 1)) < ratAbs (v - nth l (searchsorted_left l v)))
  · have hilt : searchsorted_left l v - 1 < l.length := by omega
    obtain ⟨x, hx⟩ : ∃ x, l.get? (searchsorted_left l v - 1) = some x :=
      ⟨_, List.get?_eq_get hilt⟩
    refine ⟨x, searchsorted_left l v - 1, ?_, hilt, hx, ?_, ?_⟩
    · rw [find_nearest, if_pos hC, nth_eq_of_get? hx]
    · intro h0
      omega
    · intro hL
      omega
  · have hslt : searchsorted_left l v < l.length := by
      rcases Nat.lt_or_ge (searchsorted_left l v) l.length with h | h
      · exact h
      · exact absurd ⟨by omega, Or.inl (by omega)⟩ hC
    obtain ⟨x, hx⟩ : ∃ x, l.get? (searchsorted_left l v) = some x :=
      ⟨_, List.get?_eq_get hslt⟩
    refine ⟨x, searchsorted_left l v, ?_, hslt, hx, ?_, ?_⟩
    · rw [find_nearest, if_neg hC, hx]
      rfl
    · intro h0
      exact h0
    · intro hL
      omega

theorem sorted_le_of_get? {l : List ℚ} (hs : l.Sorted (· ≤ ·)) {j i : Nat} {x a : ℚ}
    (hji : j ≤ i) (hx : l.get? j = some x) (ha : l.get? i = some a) : x ≤ a := by
  obtain ⟨hjl, hxg⟩ := List.get?_eq_some.mp hx
  obtain ⟨hil, hag⟩ := List.get?_eq_some.mp ha
  rcases Nat.eq_or_lt_of_le hji with rfl | hlt
  · rw [← hxg, ← hag]
  · rw [← hxg, ← hag]
    exact hs.rel_get_of_lt hlt

theorem sorted_le_getLast {l : List ℚ} (hs : l.Sorted (· ≤ ·)) (hne : l ≠ [])
    {x : ℚ} (hx : x ∈ l) : x ≤ l.getLast hne := by
  obtain ⟨⟨j, hj⟩, hxg⟩ := List.mem_iff_get.mp hx
  have hlast : l.getLast hne = l.get ⟨l.length - 1, by omega⟩ := by
    rw [List.getLast_eq_getElem, List.get_eq_getElem]
  rw [hlast, ← hxg]
  exact sorted_le_of_get? hs (by omega) (List.get?_eq_get hj)
    (List.get?_eq_get (by omega : l.length - 1 < l.length))

/-- C7: on a nonempty non-decreasing sequence `find_nearest` returns a
`(value, index)` pair without error, with the index in bounds and the value
the element at that index; a query below the first element returns index 0,
a query above the last element returns the last index; on the empty
sequence, and only there, it fails (the source raises `IndexError`). -/
theorem find_nearest_safe (l : List ℚ) (q : ℚ) (hne : l ≠ [])
    (hs : l.Sorted (· ≤ ·)) :
    (∃ x i, find_nearest l q = some (x, i) ∧ i < l.length ∧ l.get? i = some x
      ∧ (q < l.head hne → i = 0)
      ∧ (l.getLast hne < q → i = l.length - 1))
    ∧ find_nearest [] q = none := by
  refine ⟨?_, rfl⟩
  obtain ⟨x, i, hres, hilt, hget, h0, hL⟩ := find_nearest_spec l q hne
  refine ⟨x, i, hres, hilt, hget, ?_, ?_⟩
  · intro hq
    apply h0
    cases l with
    | nil => exact absurd rfl hne
    | cons a t =>
      rw [searchsorted_left_cons, if_neg]
      exact fun h => absurd hq (not_lt.mpr (le_of_lt h))
  · intro hq
    apply hL
    exact searchsorted_left_eq_length
      (fun x hx => lt_of_le_of_lt (sorted_le_getLast hs hne hx) hq)

/-- C7 witness at the concrete sequence `[10, 20, 30]` and query `5`. -/
theorem find_nearest_safe_witness :
    (([10, 20, 30] : List ℚ) ≠ [])
      ∧ ([(10 : ℚ), 20, 30].Sorted (· ≤ ·))
      ∧ ((∃ x i, find_nearest [10, 20, 30] 5 = some (x, i)
            ∧ i < ([(10 : ℚ), 20, 30]).length
            ∧ ([(10 : ℚ), 20, 30]).get? i = some x
            ∧ ((5 : ℚ) < ([(10 : ℚ), 20, 30]).head (by decide) → i = 0)
            ∧ (([(10 : ℚ), 20, 30]).getLast (by decide) < 5 →
                i = ([(10 : ℚ), 20, 30]).length - 1))
          ∧ find_nearest [] 5 = none) :=
  ⟨by decide, by decide, find_nearest_safe [10, 20, 30] 5 (by decide) (by decide)⟩

/-- C2 counterexample: for the sequence `[10, 20, 30]` and the exact-midpoint
query `15`, `find_nearest` returns `(20, 1)` — the later (higher-index)
element — not the claimed `(10, 0)`. -/
theorem find_nearest_mid_cex :
    find_nearest [10, 20, 30] 15 = some (20, 1)
      ∧ find_nearest [10, 20, 30] 15 ≠ some (10, 0) := by
  have hss : searchsorted_left [10, 20, 30] 15 = 1 := by decide
  have h0 : nth [10, 20, 30] 0 = 10 := by decide
  have h1 : nth [10, 20, 30] 1 = 20 := by decide
  have hcond : ¬ ((1 : Nat) > 0 ∧ ((1 : Nat) = ([(10 : ℚ), 20, 30]).length ∨
      ratAbs (15 - nth [10, 20, 30] (1 - 1)) < ratAbs (15 - nth [10, 20, 30] 1))) := by
    rintro ⟨-, h | h⟩
    · simp at h
    · rw [show (1 : Nat) - 1 = 0 from rfl, h0, h1, ratAbs_eq_abs, ratAbs_eq_abs] at h
      norm_num at h
  have hres : find_nearest [10, 20, 30] 15 = some (20, 1) := by
    unfold find_nearest
    rw [hss, if_neg hcond]
    rfl
  exact ⟨hres, by rw [hres]; decide⟩

/-- C2 (amended): `find_nearest` breaks ties toward the later (higher-index)
element: for a non-decreasing sequence with adjacent elements `a < b` and a
query exactly midway between them, it returns `b` and the higher index; in
particular for `[10, 20, 30]` and query `15` it returns `(20, 1)`.  The tie
goes to the later element because the source keeps `idx` unless the distance
to `array[idx - 1]` is strictly smaller. -/
theorem find_nearest_tie_later (l : List ℚ) (q a b : ℚ) (i : Nat)
    (hs : l.Sorted (· ≤ ·))
    (ha : l.get? i = some a) (hb : l.get? (i + 1) = some b)
    (hab : a < b) (hmid : q - a = b - q) :
    find_nearest l q = some (b, i + 1) := by
  have haq : a < q := by linarith
  have hqb : q < b := by linarith
  have hss : searchsorted_left l q = i + 1 := by
    refine searchsorted_left_eq_of ?_ hb (not_lt.mpr (le_of_lt hqb))
    intro j x hj hx
    exact lt_of_le_of_lt (sorted_le_of_get? hs (by omega) hx ha) haq
  have hiblt : i + 1 < l.length := (List.get?_eq_some.mp hb).1
  have habs : ¬ ratAbs (q - nth l i) < ratAbs (q - nth l (i + 1)) := by
    rw [nth_eq_of_get? ha, nth_eq_of_get? hb, ratAbs_eq_abs, ratAbs_eq_abs]
    rw [abs_of_pos (by linarith : (0 : ℚ) < q - a),
      abs_of_neg (by linarith : q - b < 0)]
    intro hcon
    linarith
  have hC : ¬ ((i + 1) > 0 ∧ ((i + 1) = l.length ∨
      ratAbs (q - nth l (i + 1 - 1)) < ratAbs (q - nth l (i + 1)))) := by
    rintro ⟨-, h | h⟩
    · omega
    · have hii : i + 1 - 1 = i := by omega
      rw [hii] at h
      exact habs h
  unfold find_nearest
  rw [hss, if_neg hC, hb]
  rfl

/-- C2 witness at the concrete sequence `[10, 20, 30]` and query `15`. -/
theorem find_nearest_tie_later_witness :
    ([(10 : ℚ), 20, 30].Sorted (· ≤ ·))
      ∧ ([(10 : ℚ), 20, 30].get? 0 = some 10)
      ∧ ([(10 : ℚ), 20, 30].get? 1 = some 20)
      ∧ ((10 : ℚ) < 20)
      ∧ ((15 : ℚ) - 10 = 20 - 15)
      ∧ find_nearest [10, 20, 30] 15 = some (20, 0 + 1) :=
  ⟨by decide, by decide, by decide, by decide, by norm_num,
    find_nearest_tie_later [10, 20, 30] 15 10 20 0 (by decide) (by decide)
      (by decide) (by decide) (by norm_num)⟩

/-! ## Event aligner (`GazeDataLoader.parse_events`) -/

/-- One sample window of the table being tagged (`tStart`/`tEnd` columns). -/
structure SampleRow where
  tStart : ℚ
  tEnd : ℚ
  deriving DecidableEq

/-- One event record (`eye_sample`, `duration_sec`, `EVENT` columns). -/
structure EventRow where
  eye_sample : ℚ
  duration_sec : ℚ
  EVENT : String
  deriving DecidableEq

/-- A sample row together with the `event` column `parse_events` adds
(`none` is the `np.nan` initial value). -/
structure TaggedRow where
  row : SampleRow
  event : Option String
  deriving DecidableEq

/-- Embedding of `data.loc[start_idx+1:end_idx, 'event'] = event['EVENT']`:
`.loc` label slicing on the default integer index is inclusive at both ends,
so exactly the positions in `(start_idx, end_idx]` are overwritten. -/
def applyLabel (lab : String) (si ei : Nat) : Nat → List TaggedRow → List TaggedRow
  | _, [] => []
  | i, r :: rs =>
    (if si + 1 ≤ i ∧ i ≤ ei then { row := r.row, event := some lab } else r)
      :: applyLabel lab si ei (i + 1) rs

/-- One iteration of the event loop of `parse_events`: locate `start_idx` on
the `tStart` column at `event['eye_sample']`, locate `end_idx` on the `tEnd`
column at `start_time + duration_sec * 1000`, then write the label on
`(start_idx, end_idx]`.  `none` is a raised `IndexError` from
`find_nearest`. -/
def tagEvent (data : List TaggedRow) (e : EventRow) : Option (List TaggedRow) :=
  match find_nearest (data.map (fun r => r.row.tStart)) e.eye_sample with
  | none => none
  | some (start_time, start_idx) =>
    match find_nearest (data.map (fun r => r.row.tEnd))
        (start_time + e.duration_sec * 1000) with
    | none => none
    | some (_, end_idx) => some (applyLabel e.EVENT start_idx end_idx 0 data)

/-- Embedding of `GazeDataLoader.parse_events`.  The first component of the
result is the caller's `data` table after the call (the function assigns the
`event` column in place); the second is the returned frame,
`data.dropna(subset=['event']).reset_index(drop=True)`. -/
def parse_events (events : List EventRow) (data : List SampleRow) :
    Option (List TaggedRow × List (SampleRow × String)) :=
  match events.foldlM tagEvent (data.map (fun r => { row := r, event := none })) with
  | none => none
  | some final =>
    some (final, final.filterMap (fun t => t.event.map (fun lab => (t.row, lab))))

/-- The `(start_idx, end_idx)` pair an event resolves to against the sample
table, recomputing exactly the two `find_nearest` calls of `parse_events`. -/
def eventRange (data : List SampleRow) (e : EventRow) : Option (Nat × Nat) :=
  match find_nearest (data.map SampleRow.tStart) e.eye_sample with
  | none => none
  | some (start_time, start_idx) =>
    match find_nearest (data.map SampleRow.tEnd)
        (start_time + e.duration_sec * 1000) with
    | none => none
    | some (_, end_idx) => some (start_idx, end_idx)

/-- Whether sample index `i` lies in the half-open range `(start_idx,
end_idx]` that event `e` resolves to — i.e. whether `e` tags sample `i`. -/
def claimedBy (data : List SampleRow) (e : EventRow) (i : Nat) : Bool :=
  match eventRange data e with
  | none => false
  | some (si, ei) => decide (si + 1 ≤ i ∧ i ≤ ei)

/-- The final value of the `event` column at index `i` after the whole event
loop: each claiming event overwrites, so the last one wins. -/
def finalTag (events : List EventRow) (data : List SampleRow) (i : Nat) : Option String :=
  events.foldl (fun acc e => if claimedBy data e i then some e.EVENT else acc) none

/-- The sample table tagged pointwise by `f` starting at index `k`. -/
def tagTableAux (f : Nat → Option String) : Nat → List SampleRow → List TaggedRow
  | _, [] => []
  | k, r :: rs => { row := r, event := f k } :: tagTableAux f (k + 1) rs

theorem tagTableAux_map_row (f : Nat → Option String) :
    ∀ (k : Nat) (data : List SampleRow),
      (tagTableAux f k data).map TaggedRow.row = data := by
  intro k data
  induction data generalizing k with
  | nil => rfl
  | cons r rs ih => simp [tagTableAux, ih]

theorem tagTableAux_get? (f : Nat → Option String) :
    ∀ (data : List SampleRow) (k i : Nat),
      (tagTableAux f k data).get? i
        = (data.get? i).map (fun r => { row := r, event := f (k + i) }) := by
  intro data
  induction data with
  | nil => intro k i; rfl
  | cons r rs ih =>
    intro k i
    cases i with
    | zero => rfl
    | succ i =>
      show (tagTableAux f (k + 1) rs).get? i = _
      rw [ih (k + 1) i]
      have hki : k + 1 + i = k + (i + 1) := by omega
      simp only [hki, List.get?_cons_succ]

theorem applyLabel_tagTableAux (lab : String) (si ei : Nat) (f : Nat → Option String) :
    ∀ (data : List SampleRow) (k : Nat),
      applyLabel lab si ei k (tagTableAux f k data)
        = tagTableAux (fun i => if si + 1 ≤ i ∧ i ≤ ei then some lab else f i) k data := by
  intro data
  induction data with
  | nil => intro k; rfl
  | cons r rs ih =>
    intro k
    show (if si + 1 ≤ k ∧ k ≤ ei then _ else _) :: _ = _
    rw [ih (k + 1)]
    by_cases hk : si + 1 ≤ k ∧ k ≤ ei
    · simp only [tagTableAux, if_pos hk]
    · simp only [tagTableAux, if_neg hk]

theorem tagTableAux_const_none :
    ∀ (data : List SampleRow) (k : Nat),
      data.map (fun r => ({ row := r, event := none } : TaggedRow))
        = tagTableAux (fun _ => none) k data := by
  intro data
  induction data with
  | nil => intro k; rfl
  | cons r rs ih => intro k; simp [tagTableAux, ih (k + 1)]

theorem tagTableAux_map_tStart (f : Nat → Option String) (k : Nat) (data : List SampleRow) :
    (tagTableAux f k data).map (fun r => r.row.tStart) = data.map SampleRow.tStart := by
  rw [show (fun (r : TaggedRow) => r.row.tStart) = SampleRow.tStart ∘ TaggedRow.row from rfl,
    ← List.map_map, tagTableAux_map_row]

theorem tagTableAux_map_tEnd (f : Nat → Option String) (k : Nat) (data : List SampleRow) :
    (tagTableAux f k data).map (fun r => r.row.tEnd) = data.map SampleRow.tEnd := by
  rw [show (fun (r : TaggedRow) => r.row.tEnd) = SampleRow.tEnd ∘ TaggedRow.row from rfl,
    ← List.map_map, tagTableAux_map_row]

theorem find_nearest_some {l : List ℚ} (v : ℚ) (h : l ≠ []) :
    ∃ x i, find_nearest l v = some (x, i) := by
  obtain ⟨x, i, hres, -, -, -, -⟩ := find_nearest_spec l v h
  exact ⟨x, i, hres⟩

theorem tagTableAux_congr {f g : Nat → Option String} (h : ∀ i, f i = g i) :
    ∀ (k : Nat) (data : List SampleRow), tagTableAux f k data = tagTableAux g k data := by
  intro k data
  induction data generalizing k with
  | nil => rfl
  | cons r rs ih => simp [tagTableAux, h k, ih]

theorem tagEvent_tagTableAux (e : EventRow) (f : Nat → Option String)
    (data : List SampleRow) (h : data ≠ []) :
    tagEvent (tagTableAux f 0 data) e
      = some (tagTableAux (fun i => if claimedBy data e i then some e.EVENT else f i) 0 data) := by
  have hne1 : data.map SampleRow.tStart ≠ [] := fun hmap => h (List.map_eq_nil_iff.mp hmap)
  have hne2 : data.map SampleRow.tEnd ≠ [] := fun hmap => h (List.map_eq_nil_iff.mp hmap)
  obtain ⟨st, si, hst⟩ := find_nearest_some e.eye_sample hne1
  obtain ⟨en, ei, hen⟩ := find_nearest_some (st + e.duration_sec * 1000) hne2
  have hrange : eventRange data e = some (si, ei) := by
    simp only [eventRange, hst, hen]
  simp only [tagEvent, tagTableAux_map_tStart, tagTableAux_map_tEnd, hst, hen]
  rw [applyLabel_tagTableAux]
  congr 1
  exact tagTableAux_congr
    (fun i => by simp only [claimedBy, hrange, decide_eq_true_eq]) 0 data

theorem foldlM_tagEvent (data : List SampleRow) (h : data ≠ []) :
    ∀ (events : List EventRow) (f : Nat → Option String),
      events.foldlM tagEvent (tagTableAux f 0 data)
        = some (tagTableAux
            (fun i => events.foldl
              (fun acc e => if claimedBy data e i then some e.EVENT else acc) (f i))
            0 data) := by
  intro events
  induction events with
  | nil => intro f; rfl
  | cons e es ih =>
    intro f
    rw [List.foldlM_cons, tagEvent_tagTableAux e f data h]
    show es.foldlM tagEvent _ = _
    rw [ih (fun i => if claimedBy data e i then some e.EVENT else f i)]
    simp only [List.foldl_cons]

theorem parse_events_eq (events : List EventRow) (data : List SampleRow) (h : data ≠ []) :
    parse_events events data
      = some (tagTableAux (finalTag events data) 0 data,
          (tagTableAux (finalTag events data) 0 data).filterMap
            (fun t => t.event.map (fun lab => (t.row, lab)))) := by
  simp only [parse_events, tagTableAux_const_none data 0, foldlM_tagEvent data h events]
  rfl

theorem foldl_tag_eq (data : List SampleRow) (i : Nat) :
    ∀ (events : List EventRow) (g0 : Option String),
      events.foldl (fun acc e => if claimedBy data e i then some e.EVENT else acc) g0
        = match events.reverse.find? (fun e => claimedBy data e i) with
          | some e => some e.EVENT
          | none => g0 := by
  intro events
  induction events with
  | nil => intro g0; rfl
  | cons e es ih =>
    intro g0
    rw [List.foldl_cons, ih, List.reverse_cons, List.find?_append]
    cases hfind : es.reverse.find? (fun e => claimedBy data e i) with
    | some e' => simp [hfind]
    | none =>
      cases hce : claimedBy data e i with
      | true => simp [hfind, hce]
      | false => simp [hfind, hce]

theorem finalTag_eq_find? (events : List EventRow) (data : List SampleRow) (i : Nat) :
    finalTag events data i
      = (events.reverse.find? (fun e => claimedBy data e i)).map EventRow.EVENT := by
  rw [finalTag, foldl_tag_eq data i events none]
  cases hfind : events.reverse.find? (fun e => claimedBy data e i) with
  | some e => rfl
  | none => rfl

theorem finalTag_none_iff (events : List EventRow) (data : List SampleRow) (i : Nat) :
    finalTag events data i = none ↔ ∀ e ∈ events, claimedBy data e i = false := by
  rw [finalTag_eq_find?]
  constructor
  · intro hmap e he
    cases hfind : events.reverse.find? (fun e => claimedBy data e i) with
    | some e' => rw [hfind] at hmap; simp at hmap
    | none =>
      have := List.find?_eq_none.mp hfind e (List.mem_reverse.mpr he)
      simpa using this
  · intro hall
    have hfind : events.reverse.find? (fun e => claimedBy data e i) = none :=
      List.find?_eq_none.mpr (fun e he => by simp [hall e (List.mem_reverse.mp he)])
    rw [hfind]
    rfl

theorem finalTag_some (events : List EventRow) (data : List SampleRow) (i : Nat)
    (lab : String) (h : finalTag events data i = some lab) :
    ∃ e ∈ events, claimedBy data e i = true ∧ e.EVENT = lab := by
  rw [finalTag_eq_find?] at h
  cases hfind : events.reverse.find? (fun e => claimedBy data e i) with
  | none => rw [hfind] at h; simp at h
  | some e =>
    rw [hfind] at h
    have hp : claimedBy data e i = true := by
      have hq := List.find?_some hfind
      simpa using hq
    refine ⟨e, List.mem_reverse.mp (List.mem_of_find?_eq_some hfind), hp, ?_⟩
    simpa using h

/-- C5: on a nonempty sample table, `parse_events` succeeds and, for each
event, exactly the samples whose index lies in `(start_idx, end_idx]` —
exclusive of the located start index, inclusive of the located end index,
which is what `claimedBy` states — receive that event's label; a sample's
final tag is `none` exactly when no event claimed it, and those samples are
dropped from the returned table, while every tagged sample's label is the
label of an event that claimed it (the last such event, since later events
overwrite). -/
theorem parse_events_tag_range (events : List EventRow) (data : List SampleRow)
    (h : data ≠ []) :
    ∃ final out, parse_events events data = some (final, out)
      ∧ (∀ i, final.get? i
          = (data.get? i).map (fun r => { row := r, event := finalTag events data i }))
      ∧ (∀ i, finalTag events data i = none ↔ ∀ e ∈ events, claimedBy data e i = false)
      ∧ (∀ i lab, finalTag events data i = some lab →
          ∃ e ∈ events, claimedBy data e i = true ∧ e.EVENT = lab)
      ∧ out = final.filterMap (fun t => t.event.map (fun lab => (t.row, lab))) := by
  refine ⟨_, _, parse_events_eq events data h, ?_, ?_, ?_, rfl⟩
  · intro i
    rw [tagTableAux_get?]
    simp only [Nat.zero_add]
  · intro i
    exact finalTag_none_iff events data i
  · intro i lab
    exact finalTag_some events data i lab

/-- Witness sample table: two windows. -/
def sampleW1 : List SampleRow := [⟨90, 110⟩, ⟨100, 120⟩]

/-- Witness event table: one event. -/
def eventW1 : List EventRow := [⟨100, 1, "fix"⟩]

/-- Witness sample table for the frame-effect claim. -/
def sampleW2 : List SampleRow := [⟨0, 10⟩, ⟨10, 20⟩]

/-- Witness event table for the frame-effect claim. -/
def eventW2 : List EventRow := [⟨0, 2, "blink"⟩]

/-- C5 witness: two sample windows and one event. -/
theorem parse_events_tag_range_witness :
    sampleW1 ≠ []
      ∧ (∃ final out, parse_events eventW1 sampleW1 = some (final, out)
          ∧ (∀ i, final.get? i
              = (sampleW1.get? i).map (fun r => { row := r, event := finalTag eventW1 sampleW1 i }))
          ∧ (∀ i, finalTag eventW1 sampleW1 i = none
              ↔ ∀ e ∈ eventW1, claimedBy sampleW1 e i = false)
          ∧ (∀ i lab, finalTag eventW1 sampleW1 i = some lab →
              ∃ e ∈ eventW1, claimedBy sampleW1 e i = true ∧ e.EVENT = lab)
          ∧ out = final.filterMap (fun t => t.event.map (fun lab => (t.row, lab)))) :=
  ⟨by decide, parse_events_tag_range eventW1 sampleW1 (by decide)⟩

/-- C10: `parse_events` mutates its `data` argument in place — modelled by
returning the caller's table as the first component — so after the call the
caller's table keeps all original rows in order and has gained an `event`
column that is missing (`none`) for samples claimed by no event and
otherwise holds the label of the last event whose range claimed them; the
value returned to the caller is the separate table of only the rows with a
non-missing `event`, in order (reset index). -/
theorem parse_events_frame (events : List EventRow) (data : List SampleRow)
    (h : data ≠ []) :
    ∃ final out, parse_events events data = some (final, out)
      ∧ final.map TaggedRow.row = data
      ∧ (∀ i, final.get? i = (data.get? i).map (fun r =>
          { row := r,
            event := (events.reverse.find? (fun e => claimedBy data e i)).map
              EventRow.EVENT }))
      ∧ out = final.filterMap (fun t => t.event.map (fun lab => (t.row, lab))) := by
  refine ⟨_, _, parse_events_eq events data h, tagTableAux_map_row _ 0 data, ?_, rfl⟩
  intro i
  rw [tagTableAux_get?]
  simp only [Nat.zero_add, finalTag_eq_find?]

/-- C10 witness: two sample windows and one event. -/
theorem parse_events_frame_witness :
    sampleW2 ≠ []
      ∧ (∃ final out, parse_events eventW2 sampleW2 = some (final, out)
          ∧ final.map TaggedRow.row = sampleW2
          ∧ (∀ i, final.get? i = (sampleW2.get? i).map (fun r =>
              { row := r,
                event := (eventW2.reverse.find? (fun e => claimedBy sampleW2 e i)).map
                  EventRow.EVENT }))
          ∧ out = final.filterMap (fun t => t.event.map (fun lab => (t.row, lab)))) :=
  ⟨by decide, parse_events_frame eventW2 sampleW2 (by decide)⟩

/-! ## Gaze file loader / merger (`GazeDataLoader.load_gaze_files`) -/

/-- One row of a gaze file: the two canonical time columns and the `eye`
channel column (only meaningful when the file has that column). -/
structure GazeRow where
  tStart : ℚ
  tSample : ℚ
  eye : String
  deriving DecidableEq

/-- One loaded gaze CSV file: whether an `eye` column is present, and the
rows. -/
structure GazeFile where
  hasEyeCol : Bool
  rows : List GazeRow
  deriving DecidableEq

/-- Embedding of `pd.concat(objs, ignore_index=True)`: concatenation, which
raises `ValueError: No objects to concatenate` when `objs` is empty. -/
def pd_concat (tables : List (List GazeRow)) : Except String (List GazeRow) :=
  if tables.isEmpty then Except.error "No objects to concatenate"
  else Except.ok tables.flatten

/-- Keep-first deduplication with an accumulator of already-seen rows;
embedding of `DataFrame.drop_duplicates()` (exact duplicate rows removed,
first occurrence kept). -/
def drop_duplicates_from {α : Type} [DecidableEq α] : List α → List α → List α
  | [], _ => []
  | a :: as, seen =>
    if a ∈ seen then drop_duplicates_from as seen
    else a :: drop_duplicates_from as (a :: seen)

/-- Embedding of `DataFrame.drop_duplicates()`. -/
def drop_duplicates {α : Type} [DecidableEq α] (l : List α) : List α :=
  drop_duplicates_from l []

/-- The sort column `load_and_filter` uses:
`'tStart' if event_type != 'Sample' else 'tSample'`. -/
def sort_column (event_type : String) (r : GazeRow) : ℚ :=
  if event_type ≠ "Sample" then r.tStart else r.tSample

/-!
`DataFrame.sort_values` defaults to `kind='quicksort'`, which pandas hands
to `ndarray.argsort(kind='quicksort')`, numpy's introsort for index sorts
(`aquicksort` in `npysort/quicksort.c.src`): median-of-three pivot, Hoare
partition with the pivot parked at `pr - 1`, explicit stack, switch to
insertion sort for segments of at most `SMALL_QUICKSORT + 1 = 16` elements,
and a heapsort (`aheapsort`) fallback once the depth limit `2 * msb(num)`
is exhausted.  This sort is documented as not stable, and on runs of more
than 16 tied keys its partition really does permute the tied indices.  The
functions below transcribe that algorithm over a key column
(`keys : List ℚ`) and an index array (`t : List Nat`); the C loops become
fuel-indexed recursion, with fuel large enough for every run the theorems
evaluate. -/

/-- `tosort[i]` of the C code. -/
def lget (t : List Nat) (i : Nat) : Nat :=
  (t.get? i).getD 0

/-- `INTP_SWAP(tosort[a], tosort[b])` of the C code. -/
def lswap (t : List Nat) (a b : Nat) : List Nat :=
  let x := lget t a
  let y := lget t b
  (t.set a y).set b x

/-- numpy's `SMALL_QUICKSORT` threshold. -/
def npSmallQuicksort : Nat := 15

/-- numpy's `npy_get_msb` (index of the highest set bit), fuel-recursive. -/
def natMsbAux : Nat → Nat → Nat
  | 0, _ => 0
  | fuel + 1, n => if 2 ≤ n then natMsbAux fuel (n / 2) + 1 else 0

/-- numpy's `npy_get_msb`. -/
def natMsb (n : Nat) : Nat :=
  natMsbAux n n

/-- The partition scan `do ++pi; while (LT(v[tosort[pi]], vp));`. -/
def npScanUp (keys : List ℚ) (t : List Nat) (vp : ℚ) : Nat → Nat → Nat
  | 0, pi => pi
  | fuel + 1, pi =>
    let pi' := pi + 1
    if nth keys (lget t pi') < vp then npScanUp keys t vp fuel pi' else pi'

/-- The partition scan `do --pj; while (LT(vp, v[tosort[pj]]));`. -/
def npScanDown (keys : List ℚ) (t : List Nat) (vp : ℚ) : Nat → Nat → Nat
  | 0, pj => pj
  | fuel + 1, pj =>
    let pj' := pj - 1
    if vp < nth keys (lget t pj') then npScanDown keys t vp fuel pj' else pj'

/-- The inner exchange loop of the Hoare partition: scan up, scan down,
stop when the cursors cross, otherwise swap and repeat; returns the final
`pi`. -/
def npPartitionLoop (keys : List ℚ) (vp : ℚ) : Nat → List Nat → Nat → Nat → List Nat × Nat
  | 0, t, pi, _ => (t, pi)
  | fuel + 1, t, pi, pj =>
    let pi' := npScanUp keys t vp (fuel + 1) pi
    let pj' := npScanDown keys t vp (fuel + 1) pj
    if pj' ≤ pi' then (t, pi')
    else npPartitionLoop keys vp fuel (lswap t pi' pj') pi' pj'

/-- The backward shift of one insertion-sort step:
`while (pj > pl && LT(vp, v[tosort[pk]])) { tosort[pj--] = tosort[pk--]; }`. -/
def npInsertShift (keys : List ℚ) (pl : Nat) (vp : ℚ) : Nat → List Nat → Nat → List Nat × Nat
  | 0, t, pj => (t, pj)
  | fuel + 1, t, pj =>
    if pl < pj ∧ vp < nth keys (lget t (pj - 1)) then
      npInsertShift keys pl vp fuel (t.set pj (lget t (pj - 1))) (pj - 1)
    else (t, pj)

/-- The insertion sort `aquicksort` runs on segments of at most 16
elements (`for (pi = pl + 1; pi <= pr; ++pi) ...`). -/
def npInsertionLoop (keys : List ℚ) (pl pr : Nat) : Nat → List Nat → Nat → List Nat
  | 0, t, _ => t
  | fuel + 1, t, pi =>
    if pi ≤ pr then
      let vi := lget t pi
      let vp := nth keys vi
      let tp := npInsertShift keys pl vp (fuel + 1) t pi
      npInsertionLoop keys pl pr fuel (tp.1.set tp.2 vi) (pi + 1)
    else t

/-- The sift-down loop shared by both phases of numpy's `aheapsort`
(1-based heap positions relative to the segment start `off`). -/
def npSiftLoop (keys : List ℚ) (off : Nat) (vtmp : ℚ) (n : Nat) :
    Nat → List Nat → Nat → Nat → List Nat × Nat
  | 0, t, i, _ => (t, i)
  | fuel + 1, t, i, j =>
    if j ≤ n then
      let j' := if j < n ∧ nth keys (lget t (off + j - 1)) < nth keys (lget t (off + j)) then j + 1
        else j
      if vtmp < nth keys (lget t (off + j' - 1)) then
        npSiftLoop keys off vtmp n fuel (t.set (off + i - 1) (lget t (off + j' - 1))) j' (j' + j')
      else (t, i)
    else (t, i)

/-- The heapify phase of `aheapsort`: `for (l = n >> 1; l > 0; --l)`. -/
def npHeapBuild (keys : List ℚ) (off n : Nat) : Nat → List Nat → Nat → List Nat
  | 0, t, _ => t
  | fuel + 1, t, l =>
    if 0 < l then
      let tmp := lget t (off + l - 1)
      let tp := npSiftLoop keys off (nth keys tmp) n (n + 2) t l (l + l)
      npHeapBuild keys off n fuel (tp.1.set (off + tp.2 - 1) tmp) (l - 1)
    else t

/-- The extraction phase of `aheapsort`: `for (; n > 1;)`. -/
def npHeapExtract (keys : List ℚ) (off : Nat) : Nat → List Nat → Nat → List Nat
  | 0, t, _ => t
  | fuel + 1, t, n =>
    if 1 < n then
      let tmp := lget t (off + n - 1)
      let t1 := t.set (off + n - 1) (lget t off)
      let n' := n - 1
      let tp := npSiftLoop keys off (nth keys tmp) n' (n' + 2) t1 1 2
      npHeapExtract keys off fuel (tp.1.set (off + tp.2 - 1) tmp) n'
    else t

/-- numpy's `aheapsort` on the segment of `n` indices starting at `off`. -/
def npHeapsortSeg (keys : List ℚ) (t : List Nat) (off n : Nat) : List Nat :=
  npHeapExtract keys off (n + 2) (npHeapBuild keys off n (n + 2) t (n / 2)) n

/-- The driving loop of numpy's `aquicksort`: partition big segments
(median-of-three pivot parked at `pr - 1`, Hoare exchange scan, final swap
of `pi` with `pr - 1`), push the larger side, insertion-sort small
segments, fall back to `aheapsort` when the depth limit runs out, pop the
stack until it is empty. -/
def npQsLoop (keys : List ℚ) : Nat → List Nat → Nat → Nat → List (Nat × Nat) → Int → List Nat
  | 0, t, _, _, _, _ => t
  | fuel + 1, t, pl, pr, stack, depth =>
    if pr - pl > npSmallQuicksort then
      if depth < 0 then
        let t' := npHeapsortSeg keys t pl (pr - pl + 1)
        match stack with
        | [] => t'
        | (pl', pr') :: rest => npQsLoop keys fuel t' pl' pr' rest depth
      else
        let pm := pl + (pr - pl) / 2
        let t1 := if nth keys (lget t pm) < nth keys (lget t pl) then lswap t pm pl else t
        let t2 := if nth keys (lget t1 pr) < nth keys (lget t1 pm) then lswap t1 pr pm else t1
        let t3 := if nth keys (lget t2 pm) < nth keys (lget t2 pl) then lswap t2 pm pl else t2
        let vp := nth keys (lget t3 pm)
        let t4 := lswap t3 pm (pr - 1)
        let tp := npPartitionLoop keys vp (fuel + 1) t4 pl (pr - 1)
        let pi := tp.2
        let t5 := lswap tp.1 pi (pr - 1)
        if pi - pl < pr - pi then
          npQsLoop keys fuel t5 pl (pi - 1) ((pi + 1, pr) :: stack) (depth - 1)
        else
          npQsLoop keys fuel t5 (pi + 1) pr ((pl, pi - 1) :: stack) (depth - 1)
    else
      let t' := npInsertionLoop keys pl pr (pr + 2) t (pl + 1)
      match stack with
      | [] => t'
      | (pl', pr') :: rest => npQsLoop keys fuel t' pl' pr' rest depth

/-- numpy's `aquicksort(v, tosort, num)` as called by
`ndarray.argsort(kind='quicksort')`: the permutation of `0..num-1` that
sorts `keys`. -/
def np_aquicksort (keys : List ℚ) : List Nat :=
  let n := keys.length
  npQsLoop keys (n * n + 64) (List.range n) 0 (n - 1) [] (2 * (natMsb n : Int))

/-- `rows.take(argsort(keys))`: the row order produced by
`sort_values(by=key, kind='quicksort')`. -/
def np_sort_values (key : GazeRow → ℚ) (rows : List GazeRow) : List GazeRow :=
  (np_aquicksort (rows.map key)).filterMap (fun j => rows.get? j)

/-- The `sort.drop_duplicates().reset_index(drop=True)` step of
`load_and_filter`, abstracted over the sort implementation
(`reset_index(drop=True)` renumbers rows and is the identity on the list
of rows). -/
def dedup_sort_step_with (srt : List GazeRow → List GazeRow) (rows : List GazeRow) :
    List GazeRow :=
  drop_duplicates (srt rows)

/-- The `sort_values(by=...).drop_duplicates().reset_index(drop=True)` step
of `load_and_filter`, with `sort_values` its default `kind='quicksort'`
(numpy's `aquicksort`). -/
def dedup_sort_step (event_type : String) (rows : List GazeRow) : List GazeRow :=
  dedup_sort_step_with (np_sort_values (sort_column event_type)) rows

/-- Embedding of the inner `load_and_filter` of `load_gaze_files`: per-file
right-eye filtering when an `eye` column is present, `pd.concat` of all
files (which raises when there are none), then sort and dedup. -/
def load_and_filter (files : List GazeFile) (event_type : String) :
    Except String (List GazeRow) :=
  match pd_concat (files.map (fun f =>
      if f.hasEyeCol then f.rows.filter (fun r => r.eye = "R") else f.rows)) with
  | Except.error e => Except.error e
  | Except.ok all_data => Except.ok (dedup_sort_step event_type all_data)

/-- The four sequential `load_and_filter` calls of `load_gaze_files`; an
exception from any family propagates and aborts the whole call. -/
def load_families (fix_files sac_files blink_files sample_files : List GazeFile) :
    Except String (List GazeRow × List GazeRow × List GazeRow × List GazeRow) := do
  let all_fix ← load_and_filter fix_files "Fixation"
  let all_sac ← load_and_filter sac_files "Saccade"
  let all_blink ← load_and_filter blink_files "Blink"
  let all_sample ← load_and_filter sample_files "Sample"
  pure (all_fix, all_sac, all_blink, all_sample)

/-- C3 counterexample: a family with no matching files does not yield an
empty table — `pd.concat` of an empty list raises, so `load_and_filter`
returns the `ValueError`, not `ok []`. -/
theorem load_and_filter_empty_cex :
    load_and_filter ([] : List GazeFile) "Fixation"
        = Except.error "No objects to concatenate"
      ∧ load_and_filter ([] : List GazeFile) "Fixation" ≠ Except.ok [] := by
  refine ⟨rfl, ?_⟩
  intro hcontr
  rw [show load_and_filter ([] : List GazeFile) "Fixation"
      = Except.error "No objects to concatenate" from rfl] at hcontr
  exact Except.noConfusion hcontr

/-- C3 (amended): a gaze file family with no matching files makes
`load_and_filter` raise `ValueError: No objects to concatenate` (from
`pd.concat` on an empty list) instead of yielding an empty table, and the
exception aborts `load_gaze_files` as a whole, so no other family is loaded
either. -/
theorem load_and_filter_no_files (event_type : String)
    (sac_files blink_files sample_files : List GazeFile) :
    load_and_filter ([] : List GazeFile) event_type
        = Except.error "No objects to concatenate"
      ∧ load_families [] sac_files blink_files sample_files
        = Except.error "No objects to concatenate" :=
  ⟨rfl, rfl⟩

theorem drop_duplicates_from_eq {α : Type} [DecidableEq α] :
    ∀ (l seen : List α), l.Nodup → (∀ x ∈ l, x ∉ seen) →
      drop_duplicates_from l seen = l := by
  intro l
  induction l with
  | nil => intro seen _ _; rfl
  | cons a as ih =>
    intro seen hnd hout
    rw [drop_duplicates_from, if_neg (hout a (List.mem_cons_self a as))]
    congr 1
    refine ih (a :: seen) (List.Nodup.of_cons hnd) ?_
    intro x hx
    rw [List.mem_cons]
    rintro (rfl | hseen)
    · exact (List.nodup_cons.mp hnd).1 hx
    · exact hout x (List.mem_cons_of_mem a hx) hseen

theorem drop_duplicates_eq_self {α : Type} [DecidableEq α] {l : List α}
    (h : l.Nodup) : drop_duplicates l = l :=
  drop_duplicates_from_eq l [] h (fun x _ => List.not_mem_nil x)

/-- A table of 17 rows tied on `tStart` (the fixation sort key) but
pairwise distinct in `tSample`: already sorted by `tStart` and free of
duplicate rows. -/
def rows17 : List GazeRow :=
  [0, 1, 2, 3, 4, 5, 6, 7, 8, 9, 10, 11, 12, 13, 14, 15, 16].map
    (fun q => { tStart := 0, tSample := q, eye := "R" })

set_option maxRecDepth 40000 in
/-- C9 counterexample: the dedup+sort step is not the identity on a table
that is already sorted by the time column and duplicate-free.  On 17 rows
tied on `tStart`, the default `kind='quicksort'` (numpy's `aquicksort`,
which is not stable) partitions once — the segment exceeds
`SMALL_QUICKSORT` — and its pivot parking and exchange scans permute the
tied rows; re-applying the step permutes them again, so the step is not
idempotent in either reading. -/
theorem dedup_sort_tied_cex :
    rows17.Sorted (fun a b => sort_column "Fixation" a ≤ sort_column "Fixation" b)
      ∧ rows17.Nodup
      ∧ dedup_sort_step "Fixation" rows17 ≠ rows17
      ∧ dedup_sort_step "Fixation" (dedup_sort_step "Fixation" rows17)
          ≠ dedup_sort_step "Fixation" rows17 := by
  decide

theorem sorted_perm_strict_eq {key : GazeRow → ℚ} :
    ∀ {rows l : List GazeRow}, l.Perm rows →
      l.Sorted (fun a b => key a ≤ key b) →
      rows.Sorted (fun a b => key a < key b) →
      l = rows := by
  intro rows
  induction rows with
  | nil =>
    intro l hp _ _
    exact hp.eq_nil
  | cons a rest ih =>
    intro l hp hsl hsr
    cases l with
    | nil => exact absurd hp.symm.eq_nil (by simp)
    | cons b l' =>
      have hba : b = a := by
        rcases List.mem_cons.mp (hp.subset (List.mem_cons_self b l')) with hba | hbr
        · exact hba
        · rcases List.mem_cons.mp (hp.symm.subset (List.mem_cons_self a rest)) with hab | hal
          · exact hab.symm
          · have h1 : key b ≤ key a := (List.sorted_cons.mp hsl).1 a hal
            have h2 : key a < key b := (List.sorted_cons.mp hsr).1 b hbr
            exact absurd h1 (not_le.mpr h2)
      subst hba
      have htail : l' = rest := ih hp.cons_inv hsl.of_cons hsr.of_cons
      rw [htail]

/-- C9 (amended): the dedup+sort step is the identity only on tables sorted
strictly by the family's canonical time column: for every sort meeting the
contract of `sort_values` — the output is a permutation of the rows with
non-decreasing sort keys — a duplicate-free table with strictly increasing
keys comes back unchanged.  (On tables with tied keys the guarantee fails:
the default sort is unstable and can permute the tied rows, as the
counterexample shows.) -/
theorem dedup_sort_strict_identity (event_type : String)
    (srt : List GazeRow → List GazeRow) (rows : List GazeRow)
    (hperm : (srt rows).Perm rows)
    (hsorted : (srt rows).Sorted
      (fun a b => sort_column event_type a ≤ sort_column event_type b))
    (hstrict : rows.Sorted
      (fun a b => sort_column event_type a < sort_column event_type b))
    (hnd : rows.Nodup) :
    dedup_sort_step_with srt rows = rows := by
  rw [dedup_sort_step_with, sorted_perm_strict_eq hperm hsorted hstrict,
    drop_duplicates_eq_self hnd]

/-- C9 witness: a three-row fixation table with strictly increasing
`tStart`, sorted with the embedded numpy quicksort itself. -/
theorem dedup_sort_strict_identity_witness :
    (np_sort_values (sort_column "Fixation")
        [⟨1, 1, "R"⟩, ⟨2, 2, "R"⟩, ⟨3, 3, "R"⟩]).Perm
      [⟨1, 1, "R"⟩, ⟨2, 2, "R"⟩, ⟨3, 3, "R"⟩]
      ∧ (np_sort_values (sort_column "Fixation")
          [⟨1, 1, "R"⟩, ⟨2, 2, "R"⟩, ⟨3, 3, "R"⟩]).Sorted
        (fun a b => sort_column "Fixation" a ≤ sort_column "Fixation" b)
      ∧ ([⟨1, 1, "R"⟩, ⟨2, 2, "R"⟩, ⟨3, 3, "R"⟩] : List GazeRow).Sorted
        (fun a b => sort_column "Fixation" a < sort_column "Fixation" b)
      ∧ ([⟨1, 1, "R"⟩, ⟨2, 2, "R"⟩, ⟨3, 3, "R"⟩] : List GazeRow).Nodup
      ∧ dedup_sort_step_with (np_sort_values (sort_column "Fixation"))
          [⟨1, 1, "R"⟩, ⟨2, 2, "R"⟩, ⟨3, 3, "R"⟩]
        = [⟨1, 1, "R"⟩, ⟨2, 2, "R"⟩, ⟨3, 3, "R"⟩] :=
  ⟨by decide, by decide, by decide, by decide,
    dedup_sort_strict_identity "Fixation" (np_sort_values (sort_column "Fixation"))
      [⟨1, 1, "R"⟩, ⟨2, 2, "R"⟩, ⟨3, 3, "R"⟩]
      (by decide) (by decide) (by decide) (by decide)⟩

/-! ## Saccade outlier filter of `load_gaze_files` -/

/-- One saccade row, the columns the outlier filter reads. -/
structure SacRow where
  ampDeg : ℚ
  vPeak : ℚ
  duration : ℚ
  deriving DecidableEq

/-- Embedding of `bool(series)` (`pandas.Series.__bool__`): pandas raises
`ValueError: The truth value of a Series is ambiguous` unconditionally, for
every Series. -/
def series_bool (_mask : List Bool) : Except String Bool :=
  Except.error "The truth value of a Series is ambiguous"

/-- Embedding of the Python chained comparison `5 < series < 1000`, which
Python evaluates as `(5 < series) and (series < 1000)`: the `and` first
truth-tests the left Series via `bool(...)`, which raises. -/
def chained_vPeak_mask (vs : List ℚ) : Except String (List Bool) :=
  match series_bool (vs.map (fun v => decide ((5 : ℚ) < v))) with
  | Except.error e => Except.error e
  | Except.ok b =>
    Except.ok (if b then vs.map (fun v => decide (v < 1000))
      else vs.map (fun v => decide ((5 : ℚ) < v)))

/-- Elementwise `&` of two boolean masks. -/
def maskAnd (m1 m2 : List Bool) : List Bool :=
  (m1.zip m2).map (fun p => p.1 && p.2)

/-- Boolean-mask row selection, `df[mask]`. -/
def boolIndex (rows : List SacRow) (mask : List Bool) : List SacRow :=
  (rows.zip mask).filterMap (fun p => if p.2 then some p.1 else none)

/-- Embedding of the saccade outlier-filter line of `load_gaze_files`:
`all_sac[(all_sac.ampDeg > 0) & (5 < all_sac.vPeak < 1000) &
(all_sac.ampDeg < 20) & (all_sac.duration < 600)]`.  The first mask is
computed, then the chained comparison is evaluated and raises before any
row is selected. -/
def clean_saccades (all_sac : List SacRow) : Except String (List SacRow) :=
  let m1 := all_sac.map (fun r => decide (r.ampDeg > 0))
  match chained_vPeak_mask (all_sac.map SacRow.vPeak) with
  | Except.error e => Except.error e
  | Except.ok m2 =>
    let m3 := all_sac.map (fun r => decide (r.ampDeg < 20))
    let m4 := all_sac.map (fun r => decide (r.duration < 600))
    Except.ok (boolIndex all_sac (maskAnd (maskAnd (maskAnd m1 m2) m3) m4))

/-- C1: the saccade outlier filter never returns a filtered table — on the
one-row table with `ampDeg = 1`, `vPeak = 100`, `duration = 100` (all inside
the claimed bounds) the line raises `ValueError`, because
`5 < all_sac.vPeak < 1000` is a Python chained comparison that truth-tests a
pandas Series.  The claim's filtering behaviour (and its `vPeak` boundary
exclusions) is the documented intent; the code fails on every saccade
table. -/
theorem clean_saccades_raises :
    clean_saccades [{ ampDeg := 1, vPeak := 100, duration := 100 }]
      = Except.error "The truth value of a Series is ambiguous" := rfl

/-! ## Pupil-size derivation and interpolation of `load_gaze_files` -/

/-- Embedding of the per-row lambda
`row['RPupil'] if row['RPupil'] < row['LPupil'] else row['LPupil']`. -/
def pd_min_pupil (rp lp : ℚ) : ℚ :=
  if rp < lp then rp else lp

/-- Embedding of `Series.replace(0, np.nan)` on one value: exact zeros
become the missing marker. -/
def zero_to_missing (v : ℚ) : Option ℚ :=
  if v = 0 then none else some v

/-- The value of column `l` at index `i`, if present and not missing. -/
def validAt (l : List (Option ℚ)) (i : Nat) : Option ℚ :=
  (l.get? i).bind id

/-- The nearest valid entry at or before position `i`. -/
def prevValid (l : List (Option ℚ)) (i : Nat) : Option (Nat × ℚ) :=
  ((List.range (i + 1)).reverse.filterMap
    (fun j => (validAt l j).map (fun v => (j, v)))).head?

/-- The nearest valid entry at or after position `i`. -/
def nextValid (l : List (Option ℚ)) (i : Nat) : Option (Nat × ℚ) :=
  ((List.range' i (l.length - i)).filterMap
    (fun j => (validAt l j).map (fun v => (j, v)))).head?

/-- The interpolated value at position `i` under
`Series.interpolate(method='linear', limit_direction='both')`: valid values
stay; an interior gap is linearly interpolated between its valid neighbours;
a leading (trailing) run of missing values takes the first (last) valid
value; an all-missing column stays missing. -/
def interpAt (l : List (Option ℚ)) (i : Nat) : Option ℚ :=
  match validAt l i with
  | some v => some v
  | none =>
    match prevValid l i, nextValid l i with
    | some (j, a), some (k, b) =>
      some (a + (b - a) * (((i : ℚ) - (j : ℚ)) / ((k : ℚ) - (j : ℚ))))
    | some (_, a), none => some a
    | none, some (_, b) => some b
    | none, none => none

/-- Embedding of
`Series.interpolate(method='linear', limit_direction='both')`. -/
def interpolate_linear_both (l : List (Option ℚ)) : List (Option ℚ) :=
  (List.range l.length).map (interpAt l)

/-- The pupil-size post-processing of `load_gaze_files` applied to the
`(RPupil, LPupil)` pairs of the sample table: per-row smaller channel, zeros
to missing, then linear interpolation limited in both directions. -/
def pupil_pipeline (samples : List (ℚ × ℚ)) : List (Option ℚ) :=
  interpolate_linear_both
    ((samples.map (fun p => pd_min_pupil p.1 p.2)).map zero_to_missing)

/-- C8: `pupil_size` is the smaller of `RPupil` and `LPupil` per row; an
exact zero is treated as missing; a single interior missing value between
valid neighbours 4 and 6 is replaced by linear interpolation with the value
5, strictly between 4 and 6; and a leading run of missing values before the
first valid reading 4 is filled with 4. -/
theorem load_gaze_pupil_size :
    (∀ rp lp : ℚ, pd_min_pupil rp lp = min rp lp)
      ∧ zero_to_missing 0 = none
      ∧ (pupil_pipeline [(4, 7), (9, 0), (6, 8)] = [some 4, some 5, some 6]
          ∧ (4 : ℚ) < 5 ∧ (5 : ℚ) < 6)
      ∧ pupil_pipeline [(0, 5), (0, 2), (4, 6), (6, 9)]
          = [some 4, some 4, some 4, some 6] := by
  refine ⟨?_, rfl, ⟨?_, by norm_num, by norm_num⟩, ?_⟩
  · intro rp lp
    rw [pd_min_pupil]
    rcases lt_or_le rp lp with h | h
    · rw [if_pos h, min_eq_left (le_of_lt h)]
    · rw [if_neg (not_lt.mpr h), min_eq_right h]
  · norm_num [pupil_pipeline, interpolate_linear_both, interpAt, validAt,
      prevValid, nextValid, pd_min_pupil, zero_to_missing, List.range_succ,
      List.range'_succ]
  · norm_num [pupil_pipeline, interpolate_linear_both, interpAt, validAt,
      prevValid, nextValid, pd_min_pupil, zero_to_missing, List.range_succ,
      List.range'_succ]
